import Mathlib

/-!
Verification of the convolution-visualizer repository.

The development shallowly embeds the algorithmic parts of the code:
the convolution replay engine (`ConvAnimation` in
`src/components/CNNDemo/index.tsx`), the image preprocessing and grid
extraction (`src/utils/cnn-model.ts`), the prediction handler's argmax,
and the training-log append logic.  JavaScript numbers are modelled as
rationals, pixel bytes as naturals, and a typed-array read that falls
outside the buffer (JavaScript `undefined`) as `none`.
-/

namespace CNNVis

/-! ## Convolution replay engine (`ConvAnimation`)

Props: `inputData : number[][]`, `kernel : number[][]`, `bias`, and the
activation flag (`'relu'` or `'none'`, default `'relu'`). -/

structure ConvProps where
  inputData : List (List ℚ)
  kernel : List (List ℚ)
  bias : ℚ
  reluActivation : Bool

/-- `inputH = inputData.length`. -/
def inputH (c : ConvProps) : ℕ := c.inputData.length

/-- `inputW = inputData[0].length` (the source reads row 0). -/
def inputW (c : ConvProps) : ℕ := (c.inputData.headD []).length

/-- `kernelH = kernel.length`. -/
def kernelH (c : ConvProps) : ℕ := c.kernel.length

/-- `kernelW = kernel[0].length`. -/
def kernelW (c : ConvProps) : ℕ := (c.kernel.headD []).length

/-- `outputH = inputH - kernelH + 1` (valid padding). -/
def outputH (c : ConvProps) : ℕ := inputH c - kernelH c + 1

/-- `outputW = inputW - kernelW + 1` (valid padding). -/
def outputW (c : ConvProps) : ℕ := inputW c - kernelW c + 1

/-- `totalSteps = outputH * outputW`. -/
def totalSteps (c : ConvProps) : ℕ := outputH c * outputW c

/-- `currentY = Math.floor(step / outputW)`. -/
def currentY (c : ConvProps) (step : ℕ) : ℕ := step / outputW c

/-- `currentX = step % outputW`. -/
def currentX (c : ConvProps) (step : ℕ) : ℕ := step % outputW c

/-- 2D array read `g[i][j]`; in-bounds wherever the engine uses it. -/
def cellAt (g : List (List ℚ)) (i j : ℕ) : ℚ := (g.getD i []).getD j 0

/-- The accumulation loop of `calculateResult`:
`for i < kernelH, for j < kernelW, sum += inputData[y+i][x+j] * kernel[i][j]`,
starting from `sum = 0`. -/
def calcResultLoop (c : ConvProps) (y x : ℕ) : ℚ :=
  (List.range (kernelH c)).foldl (fun acc i =>
    (List.range (kernelW c)).foldl (fun acc j =>
      acc + cellAt c.inputData (y + i) (x + j) * cellAt c.kernel i j) acc) 0

/-- `calculateResult().final`: the loop sum, plus the bias, then the
activation (`relu`: `Math.max(0, sum)`, otherwise identity). -/
def calculateResult (c : ConvProps) (step : ℕ) : ℚ :=
  let sum := calcResultLoop c (currentY c step) (currentX c step) + c.bias
  if c.reluActivation then max 0 sum else sum

/-- `isPast` for an output-grid cell `(i, j)` at a given step:
`i < currentY || (i === currentY && j < currentX)`. -/
def isPast (c : ConvProps) (step i j : ℕ) : Prop :=
  i < currentY c step ∨ (i = currentY c step ∧ j < currentX c step)

/-- `isCurrent` for an output-grid cell: `i === currentY && j === currentX`. -/
def isCurrent (c : ConvProps) (step i j : ℕ) : Prop :=
  i = currentY c step ∧ j = currentX c step

instance (c : ConvProps) (step i j : ℕ) : Decidable (isPast c step i j) := by
  unfold isPast; infer_instance

instance (c : ConvProps) (step i j : ℕ) : Decidable (isCurrent c step i j) := by
  unfold isCurrent; infer_instance

/-- The separate accumulation loop in the output-grid renderer:
`for ki < kernelH, for kj < kernelW, s += inputData[i+ki][j+kj] * kernel[ki][kj]`. -/
def outputCellLoop (c : ConvProps) (i j : ℕ) : ℚ :=
  (List.range (kernelH c)).foldl (fun s ki =>
    (List.range (kernelW c)).foldl (fun s kj =>
      s + cellAt c.inputData (i + ki) (j + kj) * cellAt c.kernel ki kj) s) 0

/-- `cellVal` of the output grid renderer: for a past or current cell,
the independently recomputed loop sum plus bias through the activation;
`0` otherwise. -/
def outputCellVal (c : ConvProps) (step i j : ℕ) : ℚ :=
  if isPast c step i j ∨ isCurrent c step i j then
    let s := outputCellLoop c i j + c.bias
    if c.reluActivation then max 0 s else s
  else 0

/-- The `setStep` updater used by the auto-advance interval:
`prev >= totalSteps - 1` keeps `prev` and turns off `isPlaying`,
otherwise `prev + 1`. -/
structure AnimState where
  step : ℕ
  isPlaying : Bool
deriving DecidableEq

/-- One tick of the auto-advance interval. -/
def advanceStep (T : ℕ) (s : AnimState) : AnimState :=
  if T - 1 ≤ s.step then { s with isPlaying := false }
  else { s with step := s.step + 1 }

/-- The reset button: `setStep(0)`. -/
def resetStep (s : AnimState) : AnimState := { s with step := 0 }

/-! ### Helper lemmas for the fold sums -/

theorem foldl_add_range (f : ℕ → ℚ) (n : ℕ) (init : ℚ) :
    (List.range n).foldl (fun a i => a + f i) init
      = init + ∑ i ∈ Finset.range n, f i := by
  induction n with
  | zero => simp
  | succ n ih =>
      rw [List.range_succ, List.foldl_append, ih, Finset.sum_range_succ]
      simp [add_assoc]

theorem calcResultLoop_eq_sum (c : ConvProps) (y x : ℕ) :
    calcResultLoop c y x
      = ∑ i ∈ Finset.range (kernelH c), ∑ j ∈ Finset.range (kernelW c),
          cellAt c.inputData (y + i) (x + j) * cellAt c.kernel i j := by
  unfold calcResultLoop
  rw [List.foldl_ext
      (g := fun a i => a + ∑ j ∈ Finset.range (kernelW c),
        cellAt c.inputData (y + i) (x + j) * cellAt c.kernel i j)]
  · rw [foldl_add_range, zero_add]
  · intro a b _
    exact foldl_add_range _ _ _

theorem outputCellLoop_eq_sum (c : ConvProps) (i j : ℕ) :
    outputCellLoop c i j
      = ∑ ki ∈ Finset.range (kernelH c), ∑ kj ∈ Finset.range (kernelW c),
          cellAt c.inputData (i + ki) (j + kj) * cellAt c.kernel ki kj := by
  unfold outputCellLoop
  rw [List.foldl_ext
      (g := fun a ki => a + ∑ kj ∈ Finset.range (kernelW c),
        cellAt c.inputData (i + ki) (j + kj) * cellAt c.kernel ki kj)]
  · rw [foldl_add_range, zero_add]
  · intro a b _
    exact foldl_add_range _ _ _

/-! ### Claims C1–C3 -/

/-- C1: for every step index `S < totalSteps`, the engine's output value at
the position `(S / outputW, S % outputW)` equals
`max 0 (bias + Σ_{i<kernelH} Σ_{j<kernelW} input[row+i][col+j] * kernel[i][j])`
under the rectified-linear configuration, and the sum plus bias without the
max under the identity configuration; and the value the output-grid renderer
independently recomputes for every visited (past or current) cell is given
by the same formula. -/
theorem C1_replay_step_value (c : ConvProps) (S : ℕ) (hS : S < totalSteps c) :
    (calculateResult c S =
      (if c.reluActivation then
        max 0 (c.bias + ∑ i ∈ Finset.range (kernelH c), ∑ j ∈ Finset.range (kernelW c),
          cellAt c.inputData (currentY c S + i) (currentX c S + j) * cellAt c.kernel i j)
      else
        c.bias + ∑ i ∈ Finset.range (kernelH c), ∑ j ∈ Finset.range (kernelW c),
          cellAt c.inputData (currentY c S + i) (currentX c S + j) * cellAt c.kernel i j))
    ∧ (∀ i j, isPast c S i j ∨ isCurrent c S i j →
        outputCellVal c S i j =
          (if c.reluActivation then
            max 0 (c.bias + ∑ ki ∈ Finset.range (kernelH c), ∑ kj ∈ Finset.range (kernelW c),
              cellAt c.inputData (i + ki) (j + kj) * cellAt c.kernel ki kj)
          else
            c.bias + ∑ ki ∈ Finset.range (kernelH c), ∑ kj ∈ Finset.range (kernelW c),
              cellAt c.inputData (i + ki) (j + kj) * cellAt c.kernel ki kj)) := by
  constructor
  · unfold calculateResult
    rw [calcResultLoop_eq_sum, add_comm]
  · intro i j hvis
    unfold outputCellVal
    rw [if_pos hvis, outputCellLoop_eq_sum, add_comm]

/-- C1 witness: a concrete 3×3 input against a 2×2 kernel at step 1. -/
theorem C1_replay_step_value_witness :
    (1 < totalSteps ⟨[[1, 2, 3], [4, 5, 6], [7, 8, 9]], [[1, 0], [0, -1]], 1, true⟩)
    ∧ ((calculateResult ⟨[[1, 2, 3], [4, 5, 6], [7, 8, 9]], [[1, 0], [0, -1]], 1, true⟩ 1 =
      (if (true : Bool) then
        max 0 ((1 : ℚ) + ∑ i ∈ Finset.range 2, ∑ j ∈ Finset.range 2,
          cellAt [[1, 2, 3], [4, 5, 6], [7, 8, 9]] (0 + i) (1 + j) * cellAt [[1, 0], [0, -1]] i j)
      else
        (1 : ℚ) + ∑ i ∈ Finset.range 2, ∑ j ∈ Finset.range 2,
          cellAt [[1, 2, 3], [4, 5, 6], [7, 8, 9]] (0 + i) (1 + j) * cellAt [[1, 0], [0, -1]] i j))
    ∧ (∀ i j, isPast ⟨[[1, 2, 3], [4, 5, 6], [7, 8, 9]], [[1, 0], [0, -1]], 1, true⟩ 1 i j
          ∨ isCurrent ⟨[[1, 2, 3], [4, 5, 6], [7, 8, 9]], [[1, 0], [0, -1]], 1, true⟩ 1 i j →
        outputCellVal ⟨[[1, 2, 3], [4, 5, 6], [7, 8, 9]], [[1, 0], [0, -1]], 1, true⟩ 1 i j =
          (if (true : Bool) then
            max 0 ((1 : ℚ) + ∑ ki ∈ Finset.range 2, ∑ kj ∈ Finset.range 2,
              cellAt [[1, 2, 3], [4, 5, 6], [7, 8, 9]] (i + ki) (j + kj) * cellAt [[1, 0], [0, -1]] ki kj)
          else
            (1 : ℚ) + ∑ ki ∈ Finset.range 2, ∑ kj ∈ Finset.range 2,
              cellAt [[1, 2, 3], [4, 5, 6], [7, 8, 9]] (i + ki) (j + kj) * cellAt [[1, 0], [0, -1]] ki kj))) :=
  ⟨by decide, C1_replay_step_value ⟨[[1, 2, 3], [4, 5, 6], [7, 8, 9]], [[1, 0], [0, -1]], 1, true⟩ 1 (by decide)⟩

/-- C2: when the kernel is no larger than the input, `totalSteps` equals
`(inputH - kernelH + 1) * (inputW - kernelW + 1)`, and for every step
`S < totalSteps` the derived position is `S / outputW` and `S % outputW`
with `outputW = inputW - kernelW + 1`, and that position is a valid output
position. -/
theorem C2_totalSteps_and_position (c : ConvProps)
    (hH : kernelH c ≤ inputH c) (hW : kernelW c ≤ inputW c)
    (S : ℕ) (hS : S < totalSteps c) :
    totalSteps c = (inputH c - kernelH c + 1) * (inputW c - kernelW c + 1)
    ∧ currentY c S = S / (inputW c - kernelW c + 1)
    ∧ currentX c S = S % (inputW c - kernelW c + 1)
    ∧ currentY c S < outputH c
    ∧ currentX c S < outputW c := by
  refine ⟨rfl, rfl, rfl, ?_, ?_⟩
  · exact Nat.div_lt_of_lt_mul (by rw [Nat.mul_comm]; exact hS)
  · exact Nat.mod_lt _ (Nat.succ_pos _)

/-- C2 witness: the concrete 3×3 input with a 2×2 kernel at step 3. -/
theorem C2_totalSteps_and_position_witness :
    (kernelH ⟨[[1, 2, 3], [4, 5, 6], [7, 8, 9]], [[1, 0], [0, -1]], 1, true⟩
        ≤ inputH ⟨[[1, 2, 3], [4, 5, 6], [7, 8, 9]], [[1, 0], [0, -1]], 1, true⟩)
    ∧ (kernelW ⟨[[1, 2, 3], [4, 5, 6], [7, 8, 9]], [[1, 0], [0, -1]], 1, true⟩
        ≤ inputW ⟨[[1, 2, 3], [4, 5, 6], [7, 8, 9]], [[1, 0], [0, -1]], 1, true⟩)
    ∧ (3 < totalSteps ⟨[[1, 2, 3], [4, 5, 6], [7, 8, 9]], [[1, 0], [0, -1]], 1, true⟩)
    ∧ (totalSteps ⟨[[1, 2, 3], [4, 5, 6], [7, 8, 9]], [[1, 0], [0, -1]], 1, true⟩
        = (inputH ⟨[[1, 2, 3], [4, 5, 6], [7, 8, 9]], [[1, 0], [0, -1]], 1, true⟩
            - kernelH ⟨[[1, 2, 3], [4, 5, 6], [7, 8, 9]], [[1, 0], [0, -1]], 1, true⟩ + 1)
          * (inputW ⟨[[1, 2, 3], [4, 5, 6], [7, 8, 9]], [[1, 0], [0, -1]], 1, true⟩
            - kernelW ⟨[[1, 2, 3], [4, 5, 6], [7, 8, 9]], [[1, 0], [0, -1]], 1, true⟩ + 1)
      ∧ currentY ⟨[[1, 2, 3], [4, 5, 6], [7, 8, 9]], [[1, 0], [0, -1]], 1, true⟩ 3
        = 3 / (inputW ⟨[[1, 2, 3], [4, 5, 6], [7, 8, 9]], [[1, 0], [0, -1]], 1, true⟩
            - kernelW ⟨[[1, 2, 3], [4, 5, 6], [7, 8, 9]], [[1, 0], [0, -1]], 1, true⟩ + 1)
      ∧ currentX ⟨[[1, 2, 3], [4, 5, 6], [7, 8, 9]], [[1, 0], [0, -1]], 1, true⟩ 3
        = 3 % (inputW ⟨[[1, 2, 3], [4, 5, 6], [7, 8, 9]], [[1, 0], [0, -1]], 1, true⟩
            - kernelW ⟨[[1, 2, 3], [4, 5, 6], [7, 8, 9]], [[1, 0], [0, -1]], 1, true⟩ + 1)
      ∧ currentY ⟨[[1, 2, 3], [4, 5, 6], [7, 8, 9]], [[1, 0], [0, -1]], 1, true⟩ 3
        < outputH ⟨[[1, 2, 3], [4, 5, 6], [7, 8, 9]], [[1, 0], [0, -1]], 1, true⟩
      ∧ currentX ⟨[[1, 2, 3], [4, 5, 6], [7, 8, 9]], [[1, 0], [0, -1]], 1, true⟩ 3
        < outputW ⟨[[1, 2, 3], [4, 5, 6], [7, 8, 9]], [[1, 0], [0, -1]], 1, true⟩) :=
  ⟨by decide, by decide, by decide,
    C2_totalSteps_and_position _ (by decide) (by decide) 3 (by decide)⟩

theorem advanceStep_iterate_from_zero (T : ℕ) (hT : 1 ≤ T) (p : Bool) (n : ℕ) :
    ((advanceStep T)^[n] ⟨0, p⟩).step = min n (T - 1) := by
  induction n with
  | zero => simp
  | succ n ih =>
      rw [Function.iterate_succ_apply', advanceStep]
      by_cases h : T - 1 ≤ ((advanceStep T)^[n] ⟨0, p⟩).step
      · rw [if_pos h]
        simp only
        omega
      · rw [if_neg h]
        simp only
        omega

/-- C3: starting from reset, `totalSteps - 1` ticks of the auto-advance
updater reach step `totalSteps - 1`; one further tick leaves the step
unchanged and turns auto-advance off; reset sets the step to 0 from any
state; and the step never leaves `[0, totalSteps - 1]`. -/
theorem C3_step_saturates (T : ℕ) (hT : 1 ≤ T) (p : Bool) (s : AnimState) :
    ((advanceStep T)^[T - 1] ⟨0, p⟩).step = T - 1
    ∧ advanceStep T ⟨T - 1, p⟩ = ⟨T - 1, false⟩
    ∧ (resetStep s).step = 0
    ∧ (s.step ≤ T - 1 → (advanceStep T s).step ≤ T - 1)
    ∧ (∀ n, ((advanceStep T)^[n] ⟨0, p⟩).step ≤ T - 1) := by
  refine ⟨?_, ?_, rfl, ?_, ?_⟩
  · rw [advanceStep_iterate_from_zero T hT]
    omega
  · rw [advanceStep, if_pos (le_refl _)]
  · intro hs
    rw [advanceStep]
    by_cases h : T - 1 ≤ s.step
    · rw [if_pos h]; exact hs
    · rw [if_neg h]
      simp only
      omega
  · intro n
    rw [advanceStep_iterate_from_zero T hT]
    omega

/-- C3 witness: a 6-step machine starting in the playing state. -/
theorem C3_step_saturates_witness :
    (1 ≤ 6)
    ∧ (((advanceStep 6)^[6 - 1] ⟨0, true⟩).step = 6 - 1
      ∧ advanceStep 6 ⟨6 - 1, true⟩ = ⟨6 - 1, false⟩
      ∧ (resetStep ⟨4, true⟩).step = 0
      ∧ ((4 : ℕ) ≤ 6 - 1 → (advanceStep 6 ⟨4, true⟩).step ≤ 6 - 1)
      ∧ (∀ n, ((advanceStep 6)^[n] ⟨0, true⟩).step ≤ 6 - 1)) :=
  ⟨by decide, C3_step_saturates 6 (by decide) true ⟨4, true⟩⟩

/-! ## `src/utils/cnn-model.ts`: images, grid extraction, preprocessing

An `ImageData` is a width, a height and the flat RGBA byte buffer of
length `4 * width * height` (`Uint8ClampedArray`); `data` gives the byte
at each in-range flat index.  A read at a flat index outside the buffer
yields JavaScript `undefined`, modelled as `none`. -/

structure ImageData where
  width : ℕ
  height : ℕ
  data : ℕ → ℕ

/-- The length of the RGBA buffer backing an `ImageData`. -/
def byteLength (img : ImageData) : ℕ := 4 * img.width * img.height

/-- A typed-array read `img.data[i]` at a possibly negative or
out-of-range flat index: `undefined` (`none`) outside the buffer. -/
def jsRead (img : ImageData) (i : ℤ) : Option ℕ :=
  if 0 ≤ i ∧ i < (byteLength img : ℤ) then some (img.data i.toNat) else none

/-! ### `imageDataToGrid` -/

/-- `startX = Math.floor((width - size) / 2)` (negative when `size > width`). -/
def gridStartX (img : ImageData) (size : ℕ) : ℤ :=
  ((img.width : ℤ) - size).fdiv 2

/-- `startY = Math.floor((height - size) / 2)`. -/
def gridStartY (img : ImageData) (size : ℕ) : ℤ :=
  ((img.height : ℤ) - size).fdiv 2

/-- One grid cell: read the red channel at
`idx = (y * width + x) * 4` with `x = startX + j`, `y = startY + i`, and
normalize by 255; an out-of-buffer read gives `none` (NaN in JavaScript). -/
def gridEntry (img : ImageData) (size i j : ℕ) : Option ℚ :=
  (jsRead img
      (((gridStartY img size + i) * img.width + (gridStartX img size + j)) * 4)).map
    (fun v => (v : ℚ) / 255)

/-- `imageDataToGrid`: the `size × size` block centered in the image,
row by row. -/
def imageDataToGrid (img : ImageData) (size : ℕ) : List (List (Option ℚ)) :=
  (List.range size).map (fun i => (List.range size).map (fun j => gridEntry img size i j))

/-! ### `preprocessImage` -/

/-- The bounding-box accumulator of `preprocessImage`'s scan. -/
structure BBox where
  minX : ℕ
  minY : ℕ
  maxX : ℕ
  maxY : ℕ
  hasPixels : Bool
deriving DecidableEq

/-- One pixel of the bounding-box scan: if the red channel at
`(y * width + x) * 4` exceeds the threshold 50, widen the box and record
that a pixel was found. -/
def bboxStep (img : ImageData) (y : ℕ) (b : BBox) (x : ℕ) : BBox :=
  if 50 < img.data ((y * img.width + x) * 4) then
    { minX := min b.minX x, minY := min b.minY y,
      maxX := max b.maxX x, maxY := max b.maxY y, hasPixels := true }
  else b

/-- The full scan over all pixels, starting from
`minX = width, minY = height, maxX = 0, maxY = 0, hasPixels = false`. -/
def findBBox (img : ImageData) : BBox :=
  (List.range img.height).foldl
    (fun b y => (List.range img.width).foldl (bboxStep img y) b)
    { minX := img.width, minY := img.height, maxX := 0, maxY := 0, hasPixels := false }

/-- `contentWidth = maxX - minX + 1`. -/
def ppContentWidth (img : ImageData) : ℕ :=
  (findBBox img).maxX - (findBBox img).minX + 1

/-- `contentHeight = maxY - minY + 1`. -/
def ppContentHeight (img : ImageData) : ℕ :=
  (findBBox img).maxY - (findBBox img).minY + 1

/-- `scale = Math.min(20 / contentWidth, 20 / contentHeight)`. -/
def ppScale (img : ImageData) : ℚ :=
  min (20 / (ppContentWidth img : ℚ)) (20 / (ppContentHeight img : ℚ))

/-- `scaledWidth = Math.floor(contentWidth * scale)`. -/
def ppScaledWidth (img : ImageData) : ℤ :=
  ⌊(ppContentWidth img : ℚ) * ppScale img⌋

/-- `scaledHeight = Math.floor(contentHeight * scale)`. -/
def ppScaledHeight (img : ImageData) : ℤ :=
  ⌊(ppContentHeight img : ℚ) * ppScale img⌋

/-- `dx = Math.floor((28 - scaledWidth) / 2)`. -/
def ppDx (img : ImageData) : ℤ := ((28 : ℤ) - ppScaledWidth img).fdiv 2

/-- `dy = Math.floor((28 - scaledHeight) / 2)`. -/
def ppDy (img : ImageData) : ℤ := ((28 : ℤ) - ppScaledHeight img).fdiv 2

/-- `preprocessImage`: when no pixel exceeds the threshold, the input is
returned unchanged; otherwise a fresh 28×28 canvas is produced, filled with
black (0), and the bounding-box content is drawn into the destination
rectangle anchored at `(dx, dy)` with size `scaledWidth × scaledHeight`.
The browser's `drawImage` resampling is outside the repository; it is
abstracted by the `resample` argument giving the intensity drawn at each
destination pixel inside the rectangle.  The result is read back as RGBA
with equal colour channels and alpha 255. -/
def preprocessImage (resample : ℕ → ℕ → ℕ) (img : ImageData) : ImageData :=
  if (findBBox img).hasPixels then
    { width := 28, height := 28,
      data := fun idx =>
        if idx % 4 = 3 then 255
        else if ppDx img ≤ ((idx / 4 % 28 : ℕ) : ℤ)
            ∧ ((idx / 4 % 28 : ℕ) : ℤ) < ppDx img + ppScaledWidth img
            ∧ ppDy img ≤ ((idx / 4 / 28 : ℕ) : ℤ)
            ∧ ((idx / 4 / 28 : ℕ) : ℤ) < ppDy img + ppScaledHeight img
          then resample (idx / 4 % 28) (idx / 4 / 28)
          else 0 }
  else img

/-! ### Helper lemmas for the image code -/

theorem foldl_fixed {α β : Type} {f : β → α → β} {b : β} {l : List α}
    (h : ∀ x ∈ l, f b x = b) : l.foldl f b = b := by
  induction l with
  | nil => rfl
  | cons a t ih =>
      rw [List.foldl_cons, h a (List.mem_cons_self a t)]
      exact ih (fun x hx => h x (List.mem_cons_of_mem a hx))

theorem findBBox_of_below_threshold (img : ImageData)
    (h : ∀ x y, x < img.width → y < img.height →
      img.data ((y * img.width + x) * 4) ≤ 50) :
    findBBox img =
      { minX := img.width, minY := img.height, maxX := 0, maxY := 0,
        hasPixels := false } := by
  unfold findBBox
  apply foldl_fixed
  intro y hy
  apply foldl_fixed
  intro x hx
  unfold bboxStep
  rw [if_neg]
  have hx' := List.mem_range.mp hx
  have hy' := List.mem_range.mp hy
  have := h x y hx' hy'
  omega

theorem pixelIndex_lt (W H x y : ℕ) (hx : x < W) (hy : y < H) :
    (y * W + x) * 4 < 4 * W * H := by
  have h1 : y * W + x < H * W := by
    calc y * W + x < y * W + W := by omega
      _ = (y + 1) * W := by ring
      _ ≤ H * W := Nat.mul_le_mul_right W hy
  nlinarith

theorem gridStart_eq_of_le (W N : ℕ) (h : N ≤ W) :
    ((W : ℤ) - N).fdiv 2 = ((W - N) / 2 : ℕ) := by
  rw [Int.fdiv_eq_ediv _ (by norm_num)]
  omega

/-! ### Claims C4, C6, C7 -/

/-- C4: if no pixel's red channel exceeds the threshold 50, the scan finds
no pixel and `preprocessImage` returns its input unchanged. -/
theorem C4_empty_input_unchanged (resample : ℕ → ℕ → ℕ) (img : ImageData)
    (h : ∀ x y, x < img.width → y < img.height →
      img.data ((y * img.width + x) * 4) ≤ 50) :
    preprocessImage resample img = img := by
  unfold preprocessImage
  rw [findBBox_of_below_threshold img h]
  rfl

/-- C4 witness: a 2×2 all-zero image is returned unchanged. -/
theorem C4_empty_input_unchanged_witness :
    (∀ x y, x < (ImageData.mk 2 2 (fun _ => 0)).width →
      y < (ImageData.mk 2 2 (fun _ => 0)).height →
      (ImageData.mk 2 2 (fun _ => 0)).data
        ((y * (ImageData.mk 2 2 (fun _ => 0)).width + x) * 4) ≤ 50)
    ∧ preprocessImage (fun _ _ => 0) (ImageData.mk 2 2 (fun _ => 0))
        = ImageData.mk 2 2 (fun _ => 0) :=
  ⟨fun _ _ _ _ => by show (0 : ℕ) ≤ 50; omega,
    C4_empty_input_unchanged (fun _ _ => 0) (ImageData.mk 2 2 (fun _ => 0))
      (fun _ _ _ _ => by show (0 : ℕ) ≤ 50; omega)⟩

theorem imageDataToGrid_getD (img : ImageData) (N i j : ℕ)
    (hi : i < N) (hj : j < N) :
    ((imageDataToGrid img N).getD i []).getD j none = gridEntry img N i j := by
  unfold imageDataToGrid
  simp [List.getD_eq_getElem?_getD, List.getElem?_range, hi, hj]

/-- C6: for a window size `N` within both image dimensions, the extracted
grid has exactly `N` rows of `N` columns; the cell at `(i, j)` is the red
channel of the pixel at `(startX + j, startY + i)` with
`startX = (width - N) / 2`, `startY = (height - N) / 2`, divided by 255;
and (with bytes at most 255) every cell value lies in `[0, 1]`. -/
theorem C6_grid_extraction (img : ImageData) (N : ℕ)
    (hW : N ≤ img.width) (hH : N ≤ img.height)
    (hbytes : ∀ k, img.data k ≤ 255) :
    (imageDataToGrid img N).length = N
    ∧ (∀ row ∈ imageDataToGrid img N, row.length = N)
    ∧ ∀ i j, i < N → j < N →
        ((imageDataToGrid img N).getD i []).getD j none
          = some ((img.data ((((img.height - N) / 2 + i) * img.width
              + ((img.width - N) / 2 + j)) * 4) : ℚ) / 255)
        ∧ (0 : ℚ) ≤ (img.data ((((img.height - N) / 2 + i) * img.width
              + ((img.width - N) / 2 + j)) * 4) : ℚ) / 255
        ∧ (img.data ((((img.height - N) / 2 + i) * img.width
              + ((img.width - N) / 2 + j)) * 4) : ℚ) / 255 ≤ 1 := by
  refine ⟨by simp [imageDataToGrid], ?_, ?_⟩
  · intro row hrow
    unfold imageDataToGrid at hrow
    obtain ⟨i, _, rfl⟩ := List.mem_map.mp hrow
    simp
  · intro i j hi hj
    have hx : (img.width - N) / 2 + j < img.width := by omega
    have hy : (img.height - N) / 2 + i < img.height := by omega
    have hidx : ((((img.height - N) / 2 + i) * img.width
        + ((img.width - N) / 2 + j)) * 4) < byteLength img := by
      unfold byteLength
      exact pixelIndex_lt img.width img.height _ _ hx hy
    have hsx : gridStartX img N = (((img.width - N) / 2 : ℕ) : ℤ) :=
      gridStart_eq_of_le img.width N hW
    have hsy : gridStartY img N = (((img.height - N) / 2 : ℕ) : ℤ) :=
      gridStart_eq_of_le img.height N hH
    have hcast : ((gridStartY img N + i) * img.width + (gridStartX img N + j)) * 4
        = (((((img.height - N) / 2 + i) * img.width
            + ((img.width - N) / 2 + j)) * 4 : ℕ) : ℤ) := by
      rw [hsx, hsy]; push_cast; ring
    have hentry : gridEntry img N i j
        = some ((img.data ((((img.height - N) / 2 + i) * img.width
            + ((img.width - N) / 2 + j)) * 4) : ℚ) / 255) := by
      unfold gridEntry jsRead
      rw [hcast, if_pos ⟨by positivity, by exact_mod_cast hidx⟩, Int.toNat_natCast]
      rfl
    refine ⟨by rw [imageDataToGrid_getD img N i j hi hj, hentry], by positivity, ?_⟩
    rw [div_le_one (by norm_num)]
    exact_mod_cast hbytes _

/-- C6 witness: a 2×2 image with all bytes 100 and window size 2. -/
theorem C6_grid_extraction_witness :
    ((2 : ℕ) ≤ (ImageData.mk 2 2 (fun _ => 100)).width)
    ∧ ((2 : ℕ) ≤ (ImageData.mk 2 2 (fun _ => 100)).height)
    ∧ (∀ k, (ImageData.mk 2 2 (fun _ => 100)).data k ≤ 255)
    ∧ ((imageDataToGrid (ImageData.mk 2 2 (fun _ => 100)) 2).length = 2
      ∧ (∀ row ∈ imageDataToGrid (ImageData.mk 2 2 (fun _ => 100)) 2, row.length = 2)
      ∧ ∀ i j, i < 2 → j < 2 →
          ((imageDataToGrid (ImageData.mk 2 2 (fun _ => 100)) 2).getD i []).getD j none
            = some (((ImageData.mk 2 2 (fun _ => 100)).data
                (((((ImageData.mk 2 2 (fun _ => 100)).height - 2) / 2 + i)
                    * (ImageData.mk 2 2 (fun _ => 100)).width
                  + (((ImageData.mk 2 2 (fun _ => 100)).width - 2) / 2 + j)) * 4) : ℚ) / 255)
          ∧ (0 : ℚ) ≤ ((ImageData.mk 2 2 (fun _ => 100)).data
                (((((ImageData.mk 2 2 (fun _ => 100)).height - 2) / 2 + i)
                    * (ImageData.mk 2 2 (fun _ => 100)).width
                  + (((ImageData.mk 2 2 (fun _ => 100)).width - 2) / 2 + j)) * 4) : ℚ) / 255
          ∧ ((ImageData.mk 2 2 (fun _ => 100)).data
                (((((ImageData.mk 2 2 (fun _ => 100)).height - 2) / 2 + i)
                    * (ImageData.mk 2 2 (fun _ => 100)).width
                  + (((ImageData.mk 2 2 (fun _ => 100)).width - 2) / 2 + j)) * 4) : ℚ) / 255 ≤ 1) :=
  ⟨by show (2 : ℕ) ≤ 2; omega, by show (2 : ℕ) ≤ 2; omega,
    fun _ => by show (100 : ℕ) ≤ 255; omega,
    C6_grid_extraction (ImageData.mk 2 2 (fun _ => 100)) 2
      (by show (2 : ℕ) ≤ 2; omega) (by show (2 : ℕ) ≤ 2; omega)
      (fun _ => by show (100 : ℕ) ≤ 255; omega)⟩

/-- C7 counterexample: on a 1×1 image with window size 3, `imageDataToGrid`
does not reject: it returns a full 3×3 grid whose corner entry is an
out-of-buffer (`undefined`) read, contradicting the claim that the function
checks the precondition and rejects with an explicit error rather than
reading out of bounds. -/
theorem C7_counterexample_no_check :
    (imageDataToGrid (ImageData.mk 1 1 (fun _ => 0)) 3).length = 3
    ∧ ((imageDataToGrid (ImageData.mk 1 1 (fun _ => 0)) 3).getD 0 []).length = 3
    ∧ ((imageDataToGrid (ImageData.mk 1 1 (fun _ => 0)) 3).getD 0 []).getD 0 none
        = none := by
  refine ⟨by decide, by decide, ?_⟩
  rw [imageDataToGrid_getD _ 3 0 0 (by omega) (by omega)]
  decide

/-- C7 amended: `imageDataToGrid` performs no precondition check: for every
window size `N`, even one exceeding the image dimensions, it returns a full
`N × N` grid; entries whose computed flat index falls outside the pixel
buffer are undefined reads (`none`, NaN after normalization in JavaScript)
rather than an explicit error. -/
theorem C7_amended_no_guard (img : ImageData) (N : ℕ) :
    (imageDataToGrid img N).length = N
    ∧ (∀ row ∈ imageDataToGrid img N, row.length = N)
    ∧ ∀ i j : ℕ,
        ¬ (0 ≤ ((gridStartY img N + i) * img.width + (gridStartX img N + j)) * 4
            ∧ ((gridStartY img N + i) * img.width + (gridStartX img N + j)) * 4
              < (byteLength img : ℤ)) →
        gridEntry img N i j = none := by
  refine ⟨by simp [imageDataToGrid], ?_, ?_⟩
  · intro row hrow
    unfold imageDataToGrid at hrow
    obtain ⟨i, _, rfl⟩ := List.mem_map.mp hrow
    simp
  · intro i j hoob
    unfold gridEntry jsRead
    rw [if_neg hoob]
    rfl

/-- C7 amended witness: the 1×1 image with window size 3. -/
theorem C7_amended_no_guard_witness :
    (imageDataToGrid (ImageData.mk 1 1 (fun _ => 0)) 3).length = 3
    ∧ (∀ row ∈ imageDataToGrid (ImageData.mk 1 1 (fun _ => 0)) 3, row.length = 3)
    ∧ ∀ i j : ℕ,
        ¬ (0 ≤ ((gridStartY (ImageData.mk 1 1 (fun _ => 0)) 3 + i)
              * (ImageData.mk 1 1 (fun _ => 0)).width
            + (gridStartX (ImageData.mk 1 1 (fun _ => 0)) 3 + j)) * 4
            ∧ ((gridStartY (ImageData.mk 1 1 (fun _ => 0)) 3 + i)
              * (ImageData.mk 1 1 (fun _ => 0)).width
            + (gridStartX (ImageData.mk 1 1 (fun _ => 0)) 3 + j)) * 4
              < (byteLength (ImageData.mk 1 1 (fun _ => 0)) : ℤ)) →
        gridEntry (ImageData.mk 1 1 (fun _ => 0)) 3 i j = none :=
  C7_amended_no_guard (ImageData.mk 1 1 (fun _ => 0)) 3

/-! ### Shared lemmas about `preprocessImage` -/

theorem foldl_invariant {α β : Type} (P : β → Prop) (f : β → α → β)
    (l : List α) (b : β) (hb : P b) (hf : ∀ b x, P b → P (f b x)) :
    P (l.foldl f b) := by
  induction l generalizing b with
  | nil => exact hb
  | cons a t ih => exact ih (f b a) (hf b a hb)

/-- Whenever the scan reports a pixel, the box it returns is ordered. -/
theorem findBBox_ordered (img : ImageData)
    (hb : (findBBox img).hasPixels = true) :
    (findBBox img).minX ≤ (findBBox img).maxX
    ∧ (findBBox img).minY ≤ (findBBox img).maxY := by
  have key : ∀ b : BBox, (b.hasPixels = true → b.minX ≤ b.maxX ∧ b.minY ≤ b.maxY) →
      ∀ (l : List ℕ) (y : ℕ), ((l.foldl (bboxStep img y) b).hasPixels = true →
        (l.foldl (bboxStep img y) b).minX ≤ (l.foldl (bboxStep img y) b).maxX
        ∧ (l.foldl (bboxStep img y) b).minY ≤ (l.foldl (bboxStep img y) b).maxY) := by
    intro b hP l y
    apply foldl_invariant (fun b => b.hasPixels = true → b.minX ≤ b.maxX ∧ b.minY ≤ b.maxY)
      (bboxStep img y) l b hP
    intro b x hPb
    unfold bboxStep
    by_cases h : 50 < img.data ((y * img.width + x) * 4)
    · rw [if_pos h]
      intro _
      constructor <;> simp
    · rw [if_neg h]
      exact hPb
  have := foldl_invariant
    (fun b : BBox => b.hasPixels = true → b.minX ≤ b.maxX ∧ b.minY ≤ b.maxY)
    (fun b y => (List.range img.width).foldl (bboxStep img y) b)
    (List.range img.height)
    { minX := img.width, minY := img.height, maxX := 0, maxY := 0, hasPixels := false }
    (by intro h; cases h)
    (fun b y hPb => key b hPb (List.range img.width) y)
  exact this hb

theorem preprocessImage_dims (resample : ℕ → ℕ → ℕ) (img : ImageData)
    (hb : (findBBox img).hasPixels = true) :
    (preprocessImage resample img).width = 28
    ∧ (preprocessImage resample img).height = 28 := by
  unfold preprocessImage
  rw [hb]
  exact ⟨rfl, rfl⟩

/-- The output pixel read back at `(x, y)`: the resampled intensity inside
the destination rectangle, the black background outside it. -/
theorem preprocessImage_data_at (resample : ℕ → ℕ → ℕ) (img : ImageData)
    (hb : (findBBox img).hasPixels = true) (x y : ℕ) (hx : x < 28) (hy : y < 28) :
    (preprocessImage resample img).data ((y * 28 + x) * 4)
      = if ppDx img ≤ (x : ℤ) ∧ (x : ℤ) < ppDx img + ppScaledWidth img
          ∧ ppDy img ≤ (y : ℤ) ∧ (y : ℤ) < ppDy img + ppScaledHeight img
        then resample x y else 0 := by
  unfold preprocessImage
  rw [hb]
  simp only [if_true]
  have hne : ¬ ((y * 28 + x) * 4 % 4 = 3) := by omega
  have hux : (y * 28 + x) * 4 / 4 % 28 = x := by omega
  have huy : (y * 28 + x) * 4 / 4 / 28 = y := by omega
  show (if (y * 28 + x) * 4 % 4 = 3 then 255 else _) = _
  rw [if_neg hne, hux, huy]

/-! ### Claim C5 -/

/-- C5: for an input with at least one pixel above the threshold, the
content width and height are the exact (untruncated) bounding-box extents,
the scale is `min(20 / contentWidth, 20 / contentHeight)`, the scaled
dimensions are floors of extent times scale, the offsets are
`floor((28 - scaledDim) / 2)` per axis, the output is a 28×28 image, and
each output pixel is the resampled bounding-box content inside the
destination rectangle and the black background outside it. -/
theorem C5_preprocess_geometry (resample : ℕ → ℕ → ℕ) (img : ImageData)
    (hb : (findBBox img).hasPixels = true) :
    ((ppContentWidth img : ℤ) = ((findBBox img).maxX : ℤ) - (findBBox img).minX + 1)
    ∧ ((ppContentHeight img : ℤ) = ((findBBox img).maxY : ℤ) - (findBBox img).minY + 1)
    ∧ ppScale img = min (20 / (ppContentWidth img : ℚ)) (20 / (ppContentHeight img : ℚ))
    ∧ ppScaledWidth img = ⌊(ppContentWidth img : ℚ) * ppScale img⌋
    ∧ ppScaledHeight img = ⌊(ppContentHeight img : ℚ) * ppScale img⌋
    ∧ ppDx img = ((28 : ℤ) - ppScaledWidth img).fdiv 2
    ∧ ppDy img = ((28 : ℤ) - ppScaledHeight img).fdiv 2
    ∧ (preprocessImage resample img).width = 28
    ∧ (preprocessImage resample img).height = 28
    ∧ ∀ x y, x < 28 → y < 28 →
        (preprocessImage resample img).data ((y * 28 + x) * 4)
          = if ppDx img ≤ (x : ℤ) ∧ (x : ℤ) < ppDx img + ppScaledWidth img
              ∧ ppDy img ≤ (y : ℤ) ∧ (y : ℤ) < ppDy img + ppScaledHeight img
            then resample x y else 0 := by
  obtain ⟨hox, hoy⟩ := findBBox_ordered img hb
  refine ⟨?_, ?_, rfl, rfl, rfl, rfl, rfl,
    (preprocessImage_dims resample img hb).1, (preprocessImage_dims resample img hb).2,
    fun x y hx hy => preprocessImage_data_at resample img hb x y hx hy⟩
  · unfold ppContentWidth; push_cast; omega
  · unfold ppContentHeight; push_cast; omega

/-- C5 witness: a 2×2 image whose only bright pixel is the top-left one. -/
theorem C5_preprocess_geometry_witness :
    ((findBBox (ImageData.mk 2 2 (fun idx => if idx = 0 then 255 else 0))).hasPixels = true)
    ∧ (((ppContentWidth (ImageData.mk 2 2 (fun idx => if idx = 0 then 255 else 0)) : ℤ)
        = ((findBBox (ImageData.mk 2 2 (fun idx => if idx = 0 then 255 else 0))).maxX : ℤ)
          - (findBBox (ImageData.mk 2 2 (fun idx => if idx = 0 then 255 else 0))).minX + 1)
      ∧ ((ppContentHeight (ImageData.mk 2 2 (fun idx => if idx = 0 then 255 else 0)) : ℤ)
        = ((findBBox (ImageData.mk 2 2 (fun idx => if idx = 0 then 255 else 0))).maxY : ℤ)
          - (findBBox (ImageData.mk 2 2 (fun idx => if idx = 0 then 255 else 0))).minY + 1)
      ∧ ppScale (ImageData.mk 2 2 (fun idx => if idx = 0 then 255 else 0))
        = min (20 / (ppContentWidth (ImageData.mk 2 2 (fun idx => if idx = 0 then 255 else 0)) : ℚ))
            (20 / (ppContentHeight (ImageData.mk 2 2 (fun idx => if idx = 0 then 255 else 0)) : ℚ))
      ∧ ppScaledWidth (ImageData.mk 2 2 (fun idx => if idx = 0 then 255 else 0))
        = ⌊(ppContentWidth (ImageData.mk 2 2 (fun idx => if idx = 0 then 255 else 0)) : ℚ)
            * ppScale (ImageData.mk 2 2 (fun idx => if idx = 0 then 255 else 0))⌋
      ∧ ppScaledHeight (ImageData.mk 2 2 (fun idx => if idx = 0 then 255 else 0))
        = ⌊(ppContentHeight (ImageData.mk 2 2 (fun idx => if idx = 0 then 255 else 0)) : ℚ)
            * ppScale (ImageData.mk 2 2 (fun idx => if idx = 0 then 255 else 0))⌋
      ∧ ppDx (ImageData.mk 2 2 (fun idx => if idx = 0 then 255 else 0))
        = ((28 : ℤ) - ppScaledWidth (ImageData.mk 2 2 (fun idx => if idx = 0 then 255 else 0))).fdiv 2
      ∧ ppDy (ImageData.mk 2 2 (fun idx => if idx = 0 then 255 else 0))
        = ((28 : ℤ) - ppScaledHeight (ImageData.mk 2 2 (fun idx => if idx = 0 then 255 else 0))).fdiv 2
      ∧ (preprocessImage (fun _ _ => 200) (ImageData.mk 2 2 (fun idx => if idx = 0 then 255 else 0))).width = 28
      ∧ (preprocessImage (fun _ _ => 200) (ImageData.mk 2 2 (fun idx => if idx = 0 then 255 else 0))).height = 28
      ∧ ∀ x y, x < 28 → y < 28 →
          (preprocessImage (fun _ _ => 200) (ImageData.mk 2 2 (fun idx => if idx = 0 then 255 else 0))).data
              ((y * 28 + x) * 4)
            = if ppDx (ImageData.mk 2 2 (fun idx => if idx = 0 then 255 else 0)) ≤ (x : ℤ)
                ∧ (x : ℤ) < ppDx (ImageData.mk 2 2 (fun idx => if idx = 0 then 255 else 0))
                    + ppScaledWidth (ImageData.mk 2 2 (fun idx => if idx = 0 then 255 else 0))
                ∧ ppDy (ImageData.mk 2 2 (fun idx => if idx = 0 then 255 else 0)) ≤ (y : ℤ)
                ∧ (y : ℤ) < ppDy (ImageData.mk 2 2 (fun idx => if idx = 0 then 255 else 0))
                    + ppScaledHeight (ImageData.mk 2 2 (fun idx => if idx = 0 then 255 else 0))
              then 200 else 0) :=
  ⟨by decide,
    C5_preprocess_geometry (fun _ _ => 200)
      (ImageData.mk 2 2 (fun idx => if idx = 0 then 255 else 0)) (by decide)⟩

/-! ### Claim C10 -/

/-- A 28×28 image whose above-threshold pixels are exactly the column
`x = 5`: its bounding box is 1 pixel wide and 28 pixels tall. -/
def verticalLineImage : ImageData :=
  ⟨28, 28, fun idx => if idx % 4 = 0 ∧ idx / 4 % 28 = 5 then 255 else 0⟩

/-- C10: on the 28×28 input whose above-threshold bounding box is 1 pixel
wide and 28 pixels tall, the computed scale is `20/28`, the scaled width
floors to 0, so the destination rectangle is empty and every pixel of the
returned 28×28 image is the black background — the drawn content is
erased, whatever the resampler does. -/
theorem C10_thin_content_erased :
    ppScale verticalLineImage = 20 / 28
    ∧ ppScaledWidth verticalLineImage = 0
    ∧ ∀ (resample : ℕ → ℕ → ℕ) (x y : ℕ), x < 28 → y < 28 →
        (preprocessImage resample verticalLineImage).data ((y * 28 + x) * 4) = 0 := by
  have hbb : findBBox verticalLineImage =
      { minX := 5, minY := 0, maxX := 5, maxY := 27, hasPixels := true } := by decide
  have hcw : ppContentWidth verticalLineImage = 1 := by
    unfold ppContentWidth; rw [hbb]; decide
  have hch : ppContentHeight verticalLineImage = 28 := by
    unfold ppContentHeight; rw [hbb]; decide
  have hscale : ppScale verticalLineImage = 20 / 28 := by
    unfold ppScale; rw [hcw, hch]; norm_num [min_def]
  have hsw : ppScaledWidth verticalLineImage = 0 := by
    unfold ppScaledWidth; rw [hcw, hscale]; norm_num
  refine ⟨hscale, hsw, ?_⟩
  intro resample x y hx hy
  rw [preprocessImage_data_at resample verticalLineImage (by rw [hbb]) x y hx hy]
  rw [if_neg]
  rw [hsw]
  omega

/-- C10 witness: the pixel at `(14, 3)` of the preprocessed image is
background even though the input column `x = 5` was fully bright. -/
theorem C10_thin_content_erased_witness :
    ((14 : ℕ) < 28) ∧ ((3 : ℕ) < 28)
    ∧ (preprocessImage (fun _ _ => 255) verticalLineImage).data ((3 * 28 + 14) * 4) = 0 :=
  ⟨by omega, by omega,
    C10_thin_content_erased.2.2 (fun _ _ => 255) 14 3 (by omega) (by omega)⟩

/-! ## `handlePredict`: predicted label from the probability vector

The handler computes
`label = probabilities.indexOf(Math.max(...probabilities))`. -/

/-- `Math.max(...l)` for a non-empty spread.  (JavaScript returns
`-Infinity` on an empty spread; `handlePredict` always passes the
length-10 probability vector, so the empty case is never reached and is
given an arbitrary value here.) -/
def mathMaxSpread : List ℚ → ℚ
  | [] => 0
  | x :: xs => xs.foldl max x

/-- `probabilities.indexOf(Math.max(...probabilities))`. -/
def handlePredictLabel (probs : List ℚ) : ℕ :=
  List.indexOf (mathMaxSpread probs) probs

theorem le_foldl_max (x : ℚ) (xs : List ℚ) :
    x ≤ xs.foldl max x ∧ ∀ a ∈ xs, a ≤ xs.foldl max x := by
  induction xs generalizing x with
  | nil => simp
  | cons b t ih =>
      refine ⟨le_trans (le_max_left x b) (ih (max x b)).1, ?_⟩
      intro a ha
      rcases List.mem_cons.mp ha with rfl | ha
      · exact le_trans (le_max_right x a) (ih (max x a)).1
      · exact (ih (max x b)).2 a ha

theorem foldl_max_mem (x : ℚ) (xs : List ℚ) :
    xs.foldl max x = x ∨ xs.foldl max x ∈ xs := by
  induction xs generalizing x with
  | nil => left; rfl
  | cons b t ih =>
      rw [List.foldl_cons]
      rcases ih (max x b) with h | h
      · rcases max_cases x b with ⟨he, _⟩ | ⟨he, _⟩
        · left; rw [h, he]
        · right; rw [h, he]; exact List.mem_cons_self b t
      · right; exact List.mem_cons_of_mem b h

theorem mathMaxSpread_mem (l : List ℚ) (h : l ≠ []) : mathMaxSpread l ∈ l := by
  match l with
  | x :: xs =>
      show xs.foldl max x ∈ x :: xs
      rcases foldl_max_mem x xs with he | hm
      · rw [he]; exact List.mem_cons_self x xs
      · exact List.mem_cons_of_mem x hm

theorem le_mathMaxSpread (l : List ℚ) (a : ℚ) (ha : a ∈ l) : a ≤ mathMaxSpread l := by
  match l with
  | x :: xs =>
      show a ≤ xs.foldl max x
      rcases List.mem_cons.mp ha with rfl | ha
      · exact (le_foldl_max a xs).1
      · exact (le_foldl_max x xs).2 a ha

theorem getD_zero_eq_getElem (l : List ℚ) (k : ℕ) (hk : k < l.length) :
    l.getD k 0 = l[k] := by
  rw [List.getD_eq_getElem?_getD, List.getElem?_eq_getElem hk]
  rfl

/-! ### Claim C8 -/

/-- C8: for a non-empty probability vector, the label computed by the
prediction handler is a valid index, the entry there is the maximum of
the vector, every entry is at most that maximum, and every entry before
the label is strictly below the maximum — so the label is the first
(lowest) index attaining the maximum. -/
theorem C8_label_is_first_argmax (probs : List ℚ) (hne : probs ≠ []) :
    handlePredictLabel probs < probs.length
    ∧ probs.getD (handlePredictLabel probs) 0 = mathMaxSpread probs
    ∧ (∀ k, k < probs.length → probs.getD k 0 ≤ mathMaxSpread probs)
    ∧ (∀ k, k < handlePredictLabel probs → probs.getD k 0 < mathMaxSpread probs) := by
  have hmem := mathMaxSpread_mem probs hne
  have hlt : handlePredictLabel probs < probs.length :=
    List.indexOf_lt_length.mpr hmem
  refine ⟨hlt, ?_, ?_, ?_⟩
  · rw [getD_zero_eq_getElem probs _ hlt]
    exact List.indexOf_get (a := mathMaxSpread probs) (l := probs) hlt
  · intro k hk
    rw [getD_zero_eq_getElem probs k hk]
    exact le_mathMaxSpread probs _ (List.getElem_mem hk)
  · intro k hk
    have hk' : k < probs.length := lt_trans hk hlt
    rw [getD_zero_eq_getElem probs k hk']
    have hne' : probs[k] ≠ mathMaxSpread probs := by
      have hk2 : k < List.findIdx (fun x => x == mathMaxSpread probs) probs := hk
      have := List.not_of_lt_findIdx hk2
      simpa using this
    exact lt_of_le_of_ne (le_mathMaxSpread probs _ (List.getElem_mem hk')) hne'

/-- C8 witness: a vector whose maximum `2/5` first occurs at index 1. -/
theorem C8_label_is_first_argmax_witness :
    ([(1 : ℚ)/10, 2/5, 2/5, 1/10] ≠ ([] : List ℚ))
    ∧ (handlePredictLabel [(1 : ℚ)/10, 2/5, 2/5, 1/10] < ([(1 : ℚ)/10, 2/5, 2/5, 1/10] : List ℚ).length
      ∧ ([(1 : ℚ)/10, 2/5, 2/5, 1/10] : List ℚ).getD (handlePredictLabel [(1 : ℚ)/10, 2/5, 2/5, 1/10]) 0
          = mathMaxSpread [(1 : ℚ)/10, 2/5, 2/5, 1/10]
      ∧ (∀ k, k < ([(1 : ℚ)/10, 2/5, 2/5, 1/10] : List ℚ).length →
          ([(1 : ℚ)/10, 2/5, 2/5, 1/10] : List ℚ).getD k 0 ≤ mathMaxSpread [(1 : ℚ)/10, 2/5, 2/5, 1/10])
      ∧ (∀ k, k < handlePredictLabel [(1 : ℚ)/10, 2/5, 2/5, 1/10] →
          ([(1 : ℚ)/10, 2/5, 2/5, 1/10] : List ℚ).getD k 0 < mathMaxSpread [(1 : ℚ)/10, 2/5, 2/5, 1/10])) :=
  ⟨by decide, C8_label_is_first_argmax [(1 : ℚ)/10, 2/5, 2/5, 1/10] (by decide)⟩

/-! ## `handleStartTraining`: the training log across runs -/

/-- One appended log row `{ epoch, loss, acc }`. -/
structure TrainingLogEntry where
  epoch : ℕ
  loss : ℚ
  acc : ℚ
deriving DecidableEq

/-- One call to `handleStartTraining`, given the per-epoch loss and
accuracy reported by the fit callbacks: `initialEpoch` is the log length
when the run starts, and each completed epoch `e` appends
`{ epoch: initialEpoch + e, loss, acc }` to the log. -/
def handleStartTraining (logs : List TrainingLogEntry) (numEpochs : ℕ)
    (loss acc : ℕ → ℚ) : List TrainingLogEntry :=
  (List.range numEpochs).foldl
    (fun cur e => cur ++ [{ epoch := logs.length + e, loss := loss e, acc := acc e }])
    logs

theorem foldl_append_singleton {α β : Type} (f : α → β) (l : List α) (L : List β) :
    l.foldl (fun cur e => cur ++ [f e]) L = L ++ l.map f := by
  induction l generalizing L with
  | nil => simp
  | cons a t ih => simp [ih]

theorem handleStartTraining_epochs (logs : List TrainingLogEntry) (numEpochs : ℕ)
    (loss acc : ℕ → ℚ) :
    (handleStartTraining logs numEpochs loss acc).map (fun e => e.epoch)
      = logs.map (fun e => e.epoch)
        ++ (List.range numEpochs).map (fun e => logs.length + e) := by
  unfold handleStartTraining
  rw [foldl_append_singleton (fun e => TrainingLogEntry.mk (logs.length + e) (loss e) (acc e))]
  simp

/-! ### Claim C9 -/

/-- C9: two successive training runs from an empty log, the first of
`n₁` epochs and the second of `n₂`, produce a log whose epoch indices are
exactly `0, 1, …, n₁ + n₂ - 1` — strictly increasing across both calls,
with no gap and no reset (`0..4` then `5..9` for two 5-epoch runs). -/
theorem C9_epochs_monotone_across_runs (n₁ n₂ : ℕ) (l₁ a₁ l₂ a₂ : ℕ → ℚ) :
    ((handleStartTraining (handleStartTraining [] n₁ l₁ a₁) n₂ l₂ a₂).map (fun e => e.epoch)
      = List.range (n₁ + n₂))
    ∧ List.Chain' (· < ·)
        ((handleStartTraining (handleStartTraining [] n₁ l₁ a₁) n₂ l₂ a₂).map (fun e => e.epoch)) := by
  have hlen : (handleStartTraining [] n₁ l₁ a₁).length = n₁ := by
    have := handleStartTraining_epochs [] n₁ l₁ a₁
    have hl := congrArg List.length this
    simpa using hl
  have hmap : (handleStartTraining (handleStartTraining [] n₁ l₁ a₁) n₂ l₂ a₂).map (fun e => e.epoch)
      = List.range (n₁ + n₂) := by
    rw [handleStartTraining_epochs, hlen]
    have h1 := handleStartTraining_epochs [] n₁ l₁ a₁
    rw [h1, List.range_add]
    simp
  exact ⟨hmap, by rw [hmap]; exact (List.pairwise_lt_range _).chain'⟩

end CNNVis
